import Mathlib

/-
Verification of the metsearch incremental result cache and fetch scheduler.

This file gives a shallow embedding of the core component of the repository:
the object-document cache (src/metsearch/objectcache.py), its pacing timer
(src/metsearch/timer.py), and the incremental-loading cursor logic of the
list model (src/metsearch/model.py).  Python mutation plus Qt signal
emission is embedded as pure state transformers returning the new state and
the list of emitted events.  Python dicts are modelled as association lists
with replace-on-existing-key assignment, Python ints as Int (the cursor) or
Nat (counters that never go below zero in the source).
-/

namespace Metsearch

/-- Documents are JSON objects; the cache never inspects their values, so a
document is modelled as an association list from field names to opaque
string values. -/
abbrev Doc := List (String × String)

/-- Network error classification, mirroring QNetworkReply.NetworkError as
used in ObjectCache.cache_object: NoError, the two errors singled out in
the `errors` tuple (objectcache.py lines 207-210), and a catch-all for
every other transport error (the final else branch). -/
inductive NetErr
  | NoError
  | ContentNotFoundError
  | ContentAccessDenied
  | OtherError
deriving DecidableEq

/-- A completed network reply as observed by ObjectCache.cache_object:
the requested url, the error code, and the payload.  body = none models an
empty byte array (falsy in Python); body = some d models a non-empty
payload whose JSON parse is the document d. -/
structure Reply where
  url : String
  error : NetErr
  body : Option Doc
deriving DecidableEq

/-- The Request class of objectcache.py: a batch key and a url. -/
structure Request where
  key : Nat
  url : String
deriving DecidableEq

/-- One entry of ObjectCache.processed_requests: the "count" and "total"
fields of the per-batch dict. -/
structure BatchInfo where
  count : Nat
  total : Nat
deriving DecidableEq

/-- Lookup in a Python-dict modelled as an association list. -/
def dictLookup {α β : Type} [DecidableEq α] : List (α × β) → α → Option β
  | [], _ => none
  | (k', v') :: rest, k => if k = k' then some v' else dictLookup rest k

/-- Assignment d[k] = v in a Python-dict modelled as an association list:
replace the value in place if the key is present (Python dicts keep the
original insertion position on overwrite), otherwise append at the end. -/
def dictInsert {α β : Type} [DecidableEq α] : List (α × β) → α → β → List (α × β)
  | [], k, v => [(k, v)]
  | (k', v') :: rest, k, v =>
      if k = k' then (k, v) :: rest else (k', v') :: dictInsert rest k v

/-- Requests.SECONDS from contants.py: the pacing period in ticks. -/
def SECONDS : Nat := 60

/-- Requests.MAX_RESULTS from contants.py: the page size. -/
def MAX_RESULTS : Nat := 80

/-- Endpoints.BASE followed by Endpoints.OBJECTS from contants.py. -/
def OBJECTS_BASE : String :=
  "https://collectionapi.metmuseum.org/public/collection/v1/objects"

/-- The url derived from one object identifier, exactly as built in
ObjectCache.populate (objectcache.py line 306). -/
def urlOf (objectID : Nat) : String :=
  OBJECTS_BASE ++ "/" ++ toString objectID

/-- The mutable state of ObjectCache (objectcache.py __init__), together
with the state of its Timer (timer.py): the elapsed-tick counter and
whether the QTimer is running. -/
structure CacheState where
  bad_urls : List String
  last_index : Int
  urls : List String
  objects : List (String × Doc)
  queue : List (List Request)
  requested_urls : List String
  processed_requests : List (Nat × BatchInfo)
  timer_count : Nat
  timer_active : Bool
deriving DecidableEq

/-- The state built by ObjectCache.__init__ and Timer.__init__: everything
empty, cursor -1, and processed_requests primed with key 0 mapped to
count 0 / total 0. -/
def initState : CacheState :=
  { bad_urls := []
    last_index := -1
    urls := []
    objects := []
    queue := []
    requested_urls := []
    processed_requests := [(0, ⟨0, 0⟩)]
    timer_count := 0
    timer_active := false }

/-- Events observable from the component: the Qt signals cache_updated,
requests_finished and timer_progress, plus two bookkeeping observations
(enqueued, dispatched) recording which request batches enter the queue and
which are popped and issued; requestsFinished is tagged with the batch key
whose completion check fired it, so emissions can be attributed to a
batch (the Qt signal itself carries no payload). -/
inductive Ev
  | cacheUpdated (url : String)
  | requestsFinished (key : Nat)
  | timerProgress (remaining : Int)
  | enqueued (batch : List Request)
  | dispatched (batch : List Request)
deriving DecidableEq

/-- Python max over the keys of processed_requests, as in
`max(self.processed_requests)` (objectcache.py line 179).  The dict always
holds key 0, so the fold start 0 agrees with Python max on every state the
source can build. -/
def maxKey (d : List (Nat × BatchInfo)) : Nat :=
  d.foldl (fun m kv => max m kv.1) 0

/-- The fresh batch key chosen by extend_queue. -/
def newBatchKey (s : CacheState) : Nat :=
  maxKey s.processed_requests + 1

/-- ObjectCache.extend_queue (objectcache.py lines 173-187): register a new
batch under a fresh key, record the urls as requested, and append the batch
of Request objects at the tail of the queue. -/
def extend_queue (s : CacheState) (urls : List String) : CacheState × List Ev :=
  let key := newBatchKey s
  let reqs := urls.map (fun u => Request.mk key u)
  ({ s with
      processed_requests := dictInsert s.processed_requests key ⟨0, urls.length⟩
      requested_urls := s.requested_urls ++ urls
      queue := s.queue ++ [reqs] },
   [Ev.enqueued reqs])

/-- The document/bad-set half of ObjectCache.cache_object (objectcache.py
lines 202-238).  The success branch requires NoError and a non-empty body;
the inner else, the elif and the final else all append the url to bad_urls
and emit cache_updated (they differ only in logging), and they are written
out separately here to mirror the source's branch structure. -/
def cacheDocPart (s : CacheState) (r : Reply) : CacheState × List Ev :=
  if r.error = NetErr.NoError then
    match r.body with
    | some d =>
        ({ s with objects := dictInsert s.objects r.url d },
         [Ev.cacheUpdated r.url])
    | none =>
        ({ s with bad_urls := s.bad_urls ++ [r.url] },
         [Ev.cacheUpdated r.url])
  else if (r.error = NetErr.ContentNotFoundError ∨
           r.error = NetErr.ContentAccessDenied) ∨ r.body = none then
    ({ s with bad_urls := s.bad_urls ++ [r.url] },
     [Ev.cacheUpdated r.url])
  else
    ({ s with bad_urls := s.bad_urls ++ [r.url] },
     [Ev.cacheUpdated r.url])

/-- The batch-counter half of ObjectCache.cache_object (objectcache.py
lines 240-246): with a key, increment that batch's count and emit
requests_finished exactly when the incremented count equals the total.
The source indexes processed_requests directly (a missing key would raise
KeyError); every call site passes a key previously registered by
extend_queue, and the missing-key case is modelled as a no-op. -/
def cacheKeyPart (s : CacheState) (key : Option Nat) : CacheState × List Ev :=
  match key with
  | none => (s, [])
  | some k =>
      match dictLookup s.processed_requests k with
      | none => (s, [])
      | some bi =>
          let bi2 : BatchInfo := ⟨bi.count + 1, bi.total⟩
          let s2 := { s with
            processed_requests := dictInsert s.processed_requests k bi2 }
          if bi2.count = bi.total then (s2, [Ev.requestsFinished k])
          else (s2, [])

/-- ObjectCache.cache_object (objectcache.py lines 189-246): classify the
reply into the document store or the bad set, then update the batch
counter. -/
def cache_object (s : CacheState) (r : Reply) (key : Option Nat) :
    CacheState × List Ev :=
  let p := cacheDocPart s r
  let q := cacheKeyPart p.1 key
  (q.1, p.2 ++ q.2)

/-- ObjectCache.get_object (objectcache.py lines 267-275): the cached
document, or an empty dict when there is none. -/
def get_object (s : CacheState) (url : String) : Doc :=
  (dictLookup s.objects url).getD []

/-- Timer.start (timer.py lines 40-43): zero the elapsed counter and run. -/
def timerStart (s : CacheState) : CacheState :=
  { s with timer_count := 0, timer_active := true }

/-- Timer.stop (timer.py lines 45-48): zero the elapsed counter and halt. -/
def timerStop (s : CacheState) : CacheState :=
  { s with timer_count := 0, timer_active := false }

/-- ObjectCache.process_queue (objectcache.py lines 319-342): pop the head
batch, if any, and issue its requests; then unconditionally start the
pacing timer. -/
def process_queue (s : CacheState) : CacheState × List Ev :=
  match s.queue with
  | [] => (timerStart s, [])
  | b :: rest => (timerStart { s with queue := rest }, [Ev.dispatched b])

/-- ObjectCache.timer_timeout (objectcache.py lines 353-362): at the
period boundary stop the timer and reprocess the queue (which restarts the
timer); otherwise advance the counter; in both cases emit timer_progress
with the seconds remaining computed from the counter after the update. -/
def timer_timeout (s : CacheState) : CacheState × List Ev :=
  if s.timer_count = SECONDS then
    let p := process_queue (timerStop s)
    (p.1, p.2 ++ [Ev.timerProgress ((SECONDS : Int) - (p.1.timer_count : Int))])
  else
    let s2 := { s with timer_count := s.timer_count + 1 }
    (s2, [Ev.timerProgress ((SECONDS : Int) - (s2.timer_count : Int))])

/-- ObjectCache.reset (objectcache.py lines 344-351): clear the identifier
list and the cursor, and nothing else. -/
def reset (s : CacheState) : CacheState :=
  { s with urls := [], last_index := -1 }

/-- The url-priming loop of ObjectCache.populate (objectcache.py lines
305-308): append each identifier's url and seed its store entry with an
empty document. -/
def popFold (s : CacheState) (objectIDs : List Nat) : CacheState :=
  objectIDs.foldl
    (fun st oid =>
      { st with
          urls := st.urls ++ [urlOf oid]
          objects := dictInsert st.objects (urlOf oid) [] })
    s

/-- ObjectCache.populate (objectcache.py lines 277-317), from the point
where the identifier lookup has produced its outcome: none models the
HTTP-error early return, some [] the falsy objectIDs early return; on a
non-empty identifier list, prime the urls and the store, enqueue the first
MAX_RESULTS urls as one batch, advance the cursor by that batch's size,
and process the queue. -/
def populate (s : CacheState) (objectIDs : Option (List Nat)) :
    CacheState × List Ev :=
  match objectIDs with
  | none => (s, [])
  | some [] => (s, [])
  | some (oid :: rest) =>
      let s1 := popFold s (oid :: rest)
      let urls80 := s1.urls.take MAX_RESULTS
      let p := extend_queue s1 urls80
      let s2 := { p.1 with last_index := p.1.last_index + (urls80.length : Int) }
      let q := process_queue s2
      (q.1, p.2 ++ q.2)

/-- Python list slicing l[a:b] for a list of strings: negative bounds count
from the end, bounds are clamped into the list. -/
def pySlice (l : List String) (a b : Int) : List String :=
  let n : Int := l.length
  let a2 : Nat := if a < 0 then (a + n).toNat else min a.toNat l.length
  let b2 : Nat := if b < 0 then (b + n).toNat else min b.toNat l.length
  (l.drop a2).take (b2 - a2)

/-- ObjectsModel.fetchMore (model.py lines 231-261) on the default invalid
parent: return unchanged when the cursor sits at the end of the identifier
list; otherwise slice out the next page (at most MAX_RESULTS urls), add the
page length to the cursor, enqueue the page, and add the page length to the
cursor a second time, exactly as the source does on lines 252 and 256 (the
beginInsertRows / endInsertRows calls are GUI bookkeeping with no cache
state). -/
def fetchMore (s : CacheState) : CacheState × List Ev :=
  let first : Int := s.last_index + 1
  if first = (s.urls.length : Int) then (s, [])
  else
    let remaining : Int := (s.urls.length : Int) - first
    let lastI : Int :=
      if remaining > (MAX_RESULTS : Int) then first + (MAX_RESULTS : Int)
      else first + remaining
    let urls := pySlice s.urls first lastI
    let s1 := { s with last_index := s.last_index + (urls.length : Int) }
    let p := extend_queue s1 urls
    let s2 := { p.1 with last_index := p.1.last_index + (urls.length : Int) }
    (s2, p.2)

/-- ObjectsModel.search (model.py lines 332-346): reset the model, and
when the search term is non-empty run populate with the term's identifier
lookup outcome. -/
def searchModel (s : CacheState) (termNonempty : Bool)
    (objectIDs : Option (List Nat)) : CacheState × List Ev :=
  if termNonempty then populate (reset s) objectIDs
  else (reset s, [])

/-- The operations that can act on the cache state: an extend_queue call,
the completion handler for one network reply, a direct process_queue call,
one QTimer tick (delivered only while the timer runs), the reset performed
at the start of a new search, a populate call with the given identifier
lookup outcome, and a fetchMore call from the view. -/
inductive Op
  | enq (urls : List String)
  | reply (r : Reply) (key : Option Nat)
  | procq
  | tick
  | rst
  | pop (objectIDs : Option (List Nat))
  | fm
deriving DecidableEq

/-- One step of the event-loop semantics. -/
def applyOp (s : CacheState) : Op → CacheState × List Ev
  | Op.enq urls => extend_queue s urls
  | Op.reply r key => cache_object s r key
  | Op.procq => process_queue s
  | Op.tick => if s.timer_active then timer_timeout s else (s, [])
  | Op.rst => (reset s, [])
  | Op.pop objectIDs => populate s objectIDs
  | Op.fm => fetchMore s

/-- Run a sequence of operations, concatenating the emitted events. -/
def runOps : CacheState → List Op → CacheState × List Ev
  | s, [] => (s, [])
  | s, op :: ops =>
      let p := applyOp s op
      let q := runOps p.1 ops
      (q.1, p.2 ++ q.2)

/-
Dictionary lemmas.
-/

theorem dictLookup_dictInsert {α β : Type} [DecidableEq α]
    (d : List (α × β)) (k k' : α) (v : β) :
    dictLookup (dictInsert d k v) k' = if k' = k then some v else dictLookup d k' := by
  induction d with
  | nil => simp [dictInsert, dictLookup]
  | cons a rest ih =>
      obtain ⟨ka, va⟩ := a
      by_cases hk : k = ka
      · subst hk
        by_cases hk' : k' = k <;> simp [dictInsert, dictLookup, hk']
      · by_cases hk' : k' = ka
        · subst hk'
          simp [dictInsert, dictLookup, hk, Ne.symm hk]
        · simp [dictInsert, dictLookup, hk, hk', ih]

theorem le_foldl_max (d : List (Nat × BatchInfo)) :
    ∀ a : Nat, a ≤ d.foldl (fun m kv => max m kv.1) a := by
  induction d with
  | nil => intro a; simp
  | cons kv rest ih =>
      intro a
      exact le_trans (le_max_left a kv.1) (ih (max a kv.1))

theorem lookup_le_foldl_max (d : List (Nat × BatchInfo)) :
    ∀ (a k : Nat) (bi : BatchInfo), dictLookup d k = some bi →
      k ≤ d.foldl (fun m kv => max m kv.1) a := by
  induction d with
  | nil => intro a k bi h; simp [dictLookup] at h
  | cons kv rest ih =>
      intro a k bi h
      simp only [dictLookup] at h
      by_cases hk : k = kv.1
      · subst hk
        simp only [List.foldl_cons]
        exact le_trans (le_max_right a kv.1) (le_foldl_max rest (max a kv.1))
      · simp only [hk, if_false] at h
        simpa using ih (max a kv.1) k bi h

theorem lookup_le_maxKey (d : List (Nat × BatchInfo)) (k : Nat) (bi : BatchInfo)
    (h : dictLookup d k = some bi) : k ≤ maxKey d :=
  lookup_le_foldl_max d 0 k bi h

theorem lookup_dictInsert_maxKeySucc (d : List (Nat × BatchInfo)) (k : Nat)
    (bi v : BatchInfo) (h : dictLookup d k = some bi) :
    dictLookup (dictInsert d (maxKey d + 1) v) k = some bi := by
  rw [dictLookup_dictInsert]
  have hne : k ≠ maxKey d + 1 := by
    have := lookup_le_maxKey d k bi h
    omega
  simp [hne, h]

theorem lookup_dictInsert_self {α β : Type} [DecidableEq α]
    (d : List (α × β)) (k : α) (v : β) :
    dictLookup (dictInsert d k v) k = some v := by
  rw [dictLookup_dictInsert]; simp

/-
Field-effect lemmas for the individual operations.
-/

theorem cacheDocPart_success (s : CacheState) (r : Reply) (d : Doc)
    (hok : r.error = NetErr.NoError) (hb : r.body = some d) :
    cacheDocPart s r =
      ({ s with objects := dictInsert s.objects r.url d },
       [Ev.cacheUpdated r.url]) := by
  unfold cacheDocPart
  rw [hb]
  simp [hok]

theorem cacheDocPart_failure (s : CacheState) (r : Reply)
    (hfail : r.error ≠ NetErr.NoError ∨ r.body = none) :
    cacheDocPart s r =
      ({ s with bad_urls := s.bad_urls ++ [r.url] },
       [Ev.cacheUpdated r.url]) := by
  unfold cacheDocPart
  rcases hfail with herr | hb
  · simp only [herr, if_false]
    split <;> rfl
  · rw [hb]
    split <;> simp_all

theorem cacheDocPart_cases (r : Reply) :
    (r.error = NetErr.NoError ∧ ∃ d, r.body = some d) ∨
      (r.error ≠ NetErr.NoError ∨ r.body = none) := by
  by_cases herr : r.error = NetErr.NoError
  · cases hb : r.body with
    | none => exact Or.inr (Or.inr rfl)
    | some d => exact Or.inl ⟨herr, d, rfl⟩
  · exact Or.inr (Or.inl herr)

theorem cacheDocPart_keeps (s : CacheState) (r : Reply) :
    (cacheDocPart s r).1.processed_requests = s.processed_requests ∧
    (cacheDocPart s r).1.queue = s.queue ∧
    (cacheDocPart s r).1.requested_urls = s.requested_urls ∧
    (cacheDocPart s r).1.urls = s.urls ∧
    (cacheDocPart s r).1.last_index = s.last_index ∧
    (cacheDocPart s r).1.timer_count = s.timer_count ∧
    (cacheDocPart s r).1.timer_active = s.timer_active := by
  rcases cacheDocPart_cases r with ⟨hok, d, hb⟩ | hfail
  · rw [cacheDocPart_success s r d hok hb]
    exact ⟨rfl, rfl, rfl, rfl, rfl, rfl, rfl⟩
  · rw [cacheDocPart_failure s r hfail]
    exact ⟨rfl, rfl, rfl, rfl, rfl, rfl, rfl⟩

theorem cacheDocPart_events (s : CacheState) (r : Reply) :
    (cacheDocPart s r).2 = [Ev.cacheUpdated r.url] := by
  rcases cacheDocPart_cases r with ⟨hok, d, hb⟩ | hfail
  · rw [cacheDocPart_success s r d hok hb]
  · rw [cacheDocPart_failure s r hfail]

theorem cacheKeyPart_keeps (s : CacheState) (key : Option Nat) :
    (cacheKeyPart s key).1.objects = s.objects ∧
    (cacheKeyPart s key).1.bad_urls = s.bad_urls ∧
    (cacheKeyPart s key).1.queue = s.queue ∧
    (cacheKeyPart s key).1.requested_urls = s.requested_urls ∧
    (cacheKeyPart s key).1.urls = s.urls ∧
    (cacheKeyPart s key).1.last_index = s.last_index ∧
    (cacheKeyPart s key).1.timer_count = s.timer_count ∧
    (cacheKeyPart s key).1.timer_active = s.timer_active := by
  unfold cacheKeyPart
  cases key with
  | none => simp
  | some k =>
      cases h : dictLookup s.processed_requests k with
      | none => simp [h]
      | some bi => by_cases hc : bi.count + 1 = bi.total <;> simp [h, hc]

theorem cacheKeyPart_events_finished (s : CacheState) (key : Option Nat) (k : Nat) :
    Ev.requestsFinished k ∈ (cacheKeyPart s key).2 → key = some k := by
  unfold cacheKeyPart
  cases key with
  | none => simp
  | some k' =>
      cases h : dictLookup s.processed_requests k' with
      | none => simp [h]
      | some bi =>
          by_cases hc : bi.count + 1 = bi.total <;> simp [h, hc, eq_comm]

theorem cache_object_keeps (s : CacheState) (r : Reply) (key : Option Nat) :
    (cache_object s r key).1.queue = s.queue ∧
    (cache_object s r key).1.requested_urls = s.requested_urls ∧
    (cache_object s r key).1.urls = s.urls ∧
    (cache_object s r key).1.last_index = s.last_index ∧
    (cache_object s r key).1.timer_count = s.timer_count ∧
    (cache_object s r key).1.timer_active = s.timer_active := by
  unfold cache_object
  obtain ⟨d1, d2, d3, d4, d5, d6, d7⟩ := cacheDocPart_keeps s r
  obtain ⟨k1, k2, k3, k4, k5, k6, k7, k8⟩ := cacheKeyPart_keeps (cacheDocPart s r).1 key
  simp only
  exact ⟨k3.trans d2, k4.trans d3, k5.trans d4, k6.trans d5, k7.trans d6, k8.trans d7⟩

theorem popFold_keeps (ids : List Nat) : ∀ s : CacheState,
    (popFold s ids).bad_urls = s.bad_urls ∧
    (popFold s ids).queue = s.queue ∧
    (popFold s ids).requested_urls = s.requested_urls ∧
    (popFold s ids).processed_requests = s.processed_requests ∧
    (popFold s ids).last_index = s.last_index ∧
    (popFold s ids).timer_count = s.timer_count ∧
    (popFold s ids).timer_active = s.timer_active := by
  induction ids with
  | nil => intro _; exact ⟨rfl, rfl, rfl, rfl, rfl, rfl, rfl⟩
  | cons oid rest ih =>
      intro s
      have h := ih { s with
        urls := s.urls ++ [urlOf oid]
        objects := dictInsert s.objects (urlOf oid) [] }
      exact h

theorem popFold_urls (ids : List Nat) : ∀ s : CacheState,
    (popFold s ids).urls = s.urls ++ ids.map urlOf := by
  induction ids with
  | nil => intro s; simp [popFold]
  | cons oid rest ih =>
      intro s
      have h := ih { s with
        urls := s.urls ++ [urlOf oid]
        objects := dictInsert s.objects (urlOf oid) [] }
      simp only [popFold, List.foldl_cons] at h ⊢
      rw [h]
      simp

theorem popFold_objects (ids : List Nat) : ∀ (s : CacheState) (u : String),
    dictLookup (popFold s ids).objects u =
      if u ∈ ids.map urlOf then some [] else dictLookup s.objects u := by
  induction ids with
  | nil => intro s u; simp [popFold]
  | cons oid rest ih =>
      intro s u
      have h := ih { s with
        urls := s.urls ++ [urlOf oid]
        objects := dictInsert s.objects (urlOf oid) [] } u
      simp only [popFold, List.foldl_cons] at h ⊢
      rw [h]
      by_cases h1 : u ∈ rest.map urlOf
      · simp [h1]
      · by_cases h2 : u = urlOf oid
        · simp [h1, h2, lookup_dictInsert_self]
        · simp [dictLookup_dictInsert, h2, h1]

theorem process_queue_keeps (s : CacheState) :
    (process_queue s).1.objects = s.objects ∧
    (process_queue s).1.bad_urls = s.bad_urls ∧
    (process_queue s).1.requested_urls = s.requested_urls ∧
    (process_queue s).1.urls = s.urls ∧
    (process_queue s).1.last_index = s.last_index ∧
    (process_queue s).1.processed_requests = s.processed_requests := by
  unfold process_queue
  cases s.queue <;> exact ⟨rfl, rfl, rfl, rfl, rfl, rfl⟩

theorem process_queue_timer (s : CacheState) :
    (process_queue s).1.timer_count = 0 ∧ (process_queue s).1.timer_active = true := by
  unfold process_queue
  cases s.queue <;> exact ⟨rfl, rfl⟩

theorem process_queue_queue (s : CacheState) :
    (process_queue s).1.queue = s.queue.tail := by
  unfold process_queue
  cases h : s.queue <;> simp [h, timerStart]

theorem process_queue_events (s : CacheState) :
    (process_queue s).2 =
      match s.queue with
      | [] => []
      | b :: _ => [Ev.dispatched b] := by
  unfold process_queue
  cases s.queue <;> rfl

theorem timer_timeout_keeps (s : CacheState) :
    (timer_timeout s).1.objects = s.objects ∧
    (timer_timeout s).1.bad_urls = s.bad_urls ∧
    (timer_timeout s).1.requested_urls = s.requested_urls ∧
    (timer_timeout s).1.urls = s.urls ∧
    (timer_timeout s).1.last_index = s.last_index ∧
    (timer_timeout s).1.processed_requests = s.processed_requests := by
  unfold timer_timeout
  by_cases h : s.timer_count = SECONDS
  · simp only [h, if_true]
    have := process_queue_keeps (timerStop s)
    simpa [timerStop] using this
  · simp [h]

theorem extend_queue_keeps (s : CacheState) (urls : List String) :
    (extend_queue s urls).1.objects = s.objects ∧
    (extend_queue s urls).1.bad_urls = s.bad_urls ∧
    (extend_queue s urls).1.urls = s.urls ∧
    (extend_queue s urls).1.last_index = s.last_index ∧
    (extend_queue s urls).1.timer_count = s.timer_count ∧
    (extend_queue s urls).1.timer_active = s.timer_active :=
  ⟨rfl, rfl, rfl, rfl, rfl, rfl⟩

theorem fetchMore_keeps (s : CacheState) :
    (fetchMore s).1.objects = s.objects ∧
    (fetchMore s).1.bad_urls = s.bad_urls ∧
    (fetchMore s).1.urls = s.urls ∧
    (fetchMore s).1.timer_count = s.timer_count ∧
    (fetchMore s).1.timer_active = s.timer_active := by
  unfold fetchMore
  by_cases h : (s.last_index + 1 : Int) = (s.urls.length : Int)
  · simp [h]
  · simp only [h, if_false]
    exact ⟨rfl, rfl, rfl, rfl, rfl⟩

theorem populate_bad_urls (s : CacheState) (objectIDs : Option (List Nat)) :
    (populate s objectIDs).1.bad_urls = s.bad_urls := by
  unfold populate
  cases objectIDs with
  | none => rfl
  | some ids =>
      cases ids with
      | nil => rfl
      | cons oid rest =>
          simp only
          have h1 := (popFold_keeps (oid :: rest) s).1
          have h2 := process_queue_keeps
          rw [(process_queue_keeps _).2.1]
          exact h1

/-
Batch-counter accounting: how each operation changes one batch's entry of
processed_requests, and how many requests_finished events it emits for
that batch.
-/

/-- Whether an operation is the completion handler of a reply tagged with
batch key k. -/
def isReplyFor (k : Nat) : Op → Bool
  | Op.reply _ key => key = some k
  | _ => false

/-- The number of replies for batch k in a batch of operations. -/
def countReplies (k : Nat) (ops : List Op) : Nat :=
  ops.countP (isReplyFor k)

/-- The number of requests_finished emissions attributed to batch k. -/
def countFinished (k : Nat) (evs : List Ev) : Nat :=
  evs.countP (fun e => e = Ev.requestsFinished k)

theorem countFinished_append (k : Nat) (a b : List Ev) :
    countFinished k (a ++ b) = countFinished k a + countFinished k b := by
  simp [countFinished, List.countP_append]

theorem countReplies_cons (k : Nat) (op : Op) (ops : List Op) :
    countReplies k (op :: ops) =
      countReplies k ops + (if isReplyFor k op then 1 else 0) := by
  simp [countReplies, List.countP_cons]

theorem cacheKeyPart_some (s : CacheState) (k : Nat) (bi : BatchInfo)
    (h : dictLookup s.processed_requests k = some bi) :
    cacheKeyPart s (some k) =
      ({ s with processed_requests :=
          dictInsert s.processed_requests k ⟨bi.count + 1, bi.total⟩ },
       if bi.count + 1 = bi.total then [Ev.requestsFinished k] else []) := by
  unfold cacheKeyPart
  dsimp only
  rw [h]
  by_cases hc : bi.count + 1 = bi.total <;> simp [hc]

theorem cacheKeyPart_some_miss (s : CacheState) (k : Nat)
    (h : dictLookup s.processed_requests k = none) :
    cacheKeyPart s (some k) = (s, []) := by
  unfold cacheKeyPart
  dsimp only
  rw [h]

theorem cache_object_processed (s : CacheState) (r : Reply) (key : Option Nat)
    (k c n : Nat) (h : dictLookup s.processed_requests k = some ⟨c, n⟩) :
    dictLookup (cache_object s r key).1.processed_requests k =
      some ⟨c + (if key = some k then 1 else 0), n⟩ ∧
    countFinished k (cache_object s r key).2 =
      (if key = some k ∧ c + 1 = n then 1 else 0) := by
  unfold cache_object
  have hp := (cacheDocPart_keeps s r).1
  have hev := cacheDocPart_events s r
  have hlook : dictLookup (cacheDocPart s r).1.processed_requests k = some ⟨c, n⟩ := by
    rw [hp]; exact h
  simp only
  rw [countFinished_append, hev]
  have hcf0 : countFinished k [Ev.cacheUpdated r.url] = 0 := by
    simp [countFinished]
  rw [hcf0]
  cases key with
  | none =>
      simp [cacheKeyPart, hlook, countFinished]
  | some k' =>
      by_cases hk : k' = k
      · subst hk
        rw [cacheKeyPart_some _ _ _ hlook]
        by_cases hc : c + 1 = n
        · simp [hc, lookup_dictInsert_self, countFinished]
        · simp [hc, lookup_dictInsert_self, countFinished]
      · have hkk : ¬ ((some k' : Option Nat) = some k) := by
          simp [hk]
        cases hlk : dictLookup (cacheDocPart s r).1.processed_requests k' with
        | none =>
            rw [cacheKeyPart_some_miss _ _ hlk]
            simp [hlook, hkk, countFinished]
        | some bi =>
            rw [cacheKeyPart_some _ _ _ hlk]
            by_cases hc : bi.count + 1 = bi.total
            · constructor
              · rw [dictLookup_dictInsert]
                simp [hk, Ne.symm hk, hlook, hkk]
              · simp [hc, countFinished, hkk, hk, Ne.symm hk]
            · constructor
              · rw [dictLookup_dictInsert]
                simp [hk, Ne.symm hk, hlook, hkk]
              · simp [hc, countFinished, hkk]

theorem extend_queue_processed (s : CacheState) (urls : List String)
    (k : Nat) (bi : BatchInfo) (h : dictLookup s.processed_requests k = some bi) :
    dictLookup (extend_queue s urls).1.processed_requests k = some bi :=
  lookup_dictInsert_maxKeySucc s.processed_requests k bi ⟨0, urls.length⟩ h

theorem extend_queue_events (s : CacheState) (urls : List String) :
    (extend_queue s urls).2 =
      [Ev.enqueued (urls.map (fun u => Request.mk (newBatchKey s) u))] := rfl

theorem countFinished_dispatch_events (k : Nat) (s : CacheState) :
    countFinished k (process_queue s).2 = 0 := by
  rw [process_queue_events]
  cases s.queue <;> simp [countFinished]

theorem populate_processed (s : CacheState) (objectIDs : Option (List Nat))
    (k : Nat) (bi : BatchInfo)
    (h : dictLookup s.processed_requests k = some bi) :
    dictLookup (populate s objectIDs).1.processed_requests k = some bi ∧
    countFinished k (populate s objectIDs).2 = 0 := by
  unfold populate
  cases objectIDs with
  | none => exact ⟨h, rfl⟩
  | some ids =>
      cases ids with
      | nil => exact ⟨h, rfl⟩
      | cons oid rest =>
          simp only
          have hpf : (popFold s (oid :: rest)).processed_requests =
              s.processed_requests := (popFold_keeps (oid :: rest) s).2.2.2.1
          constructor
          · rw [(process_queue_keeps _).2.2.2.2.2]
            refine extend_queue_processed _ _ k bi ?_
            rw [hpf]; exact h
          · rw [countFinished_append, extend_queue_events,
              countFinished_dispatch_events]
            simp [countFinished]

theorem fetchMore_processed (s : CacheState) (k : Nat) (bi : BatchInfo)
    (h : dictLookup s.processed_requests k = some bi) :
    dictLookup (fetchMore s).1.processed_requests k = some bi ∧
    countFinished k (fetchMore s).2 = 0 := by
  unfold fetchMore
  by_cases hf : (s.last_index + 1 : Int) = (s.urls.length : Int)
  · simp only [hf, if_true]
    exact ⟨h, rfl⟩
  · simp only [hf, if_false]
    constructor
    · exact extend_queue_processed _ _ k bi h
    · rw [extend_queue_events]
      simp [countFinished]

theorem timer_timeout_events_finished (k : Nat) (s : CacheState) :
    countFinished k (timer_timeout s).2 = 0 := by
  unfold timer_timeout
  by_cases h : s.timer_count = SECONDS
  · simp only [h, if_true]
    rw [countFinished_append, countFinished_dispatch_events]
    simp [countFinished]
  · simp [h, countFinished]

theorem applyOp_processed (s : CacheState) (op : Op) (k c n : Nat)
    (h : dictLookup s.processed_requests k = some ⟨c, n⟩) :
    dictLookup (applyOp s op).1.processed_requests k =
      some ⟨c + (if isReplyFor k op then 1 else 0), n⟩ ∧
    countFinished k (applyOp s op).2 =
      (if isReplyFor k op ∧ c + 1 = n then 1 else 0) := by
  cases op with
  | enq urls =>
      refine ⟨?_, ?_⟩
      · simpa [applyOp, isReplyFor] using extend_queue_processed s urls k ⟨c, n⟩ h
      · simp [applyOp, isReplyFor, extend_queue_events, countFinished]
  | reply r key =>
      have hco := cache_object_processed s r key k c n h
      have hrep : isReplyFor k (Op.reply r key) = decide (key = some k) := rfl
      constructor
      · rw [show applyOp s (Op.reply r key) = cache_object s r key from rfl, hco.1,
          hrep]
        by_cases hk : key = some k <;> simp [hk]
      · rw [show applyOp s (Op.reply r key) = cache_object s r key from rfl, hco.2,
          hrep]
        by_cases hk : key = some k <;> simp [hk]
  | procq =>
      refine ⟨?_, ?_⟩
      · simp only [applyOp, isReplyFor]
        rw [(process_queue_keeps s).2.2.2.2.2]
        simpa using h
      · simpa [applyOp, isReplyFor] using countFinished_dispatch_events k s
  | tick =>
      by_cases ha : s.timer_active
      · refine ⟨?_, ?_⟩
        · simp only [applyOp, ha, if_true, isReplyFor]
          rw [(timer_timeout_keeps s).2.2.2.2.2]
          simpa using h
        · simpa [applyOp, ha, isReplyFor] using timer_timeout_events_finished k s
      · refine ⟨?_, ?_⟩
        · simpa [applyOp, ha, isReplyFor] using h
        · simp [applyOp, ha, isReplyFor, countFinished]
  | rst =>
      refine ⟨?_, ?_⟩
      · simpa [applyOp, reset, isReplyFor] using h
      · simp [applyOp, isReplyFor, countFinished]
  | pop objectIDs =>
      have hp := populate_processed s objectIDs k ⟨c, n⟩ h
      refine ⟨?_, ?_⟩
      · simpa [applyOp, isReplyFor] using hp.1
      · simpa [applyOp, isReplyFor] using hp.2
  | fm =>
      have hp := fetchMore_processed s k ⟨c, n⟩ h
      refine ⟨?_, ?_⟩
      · simpa [applyOp, isReplyFor] using hp.1
      · simpa [applyOp, isReplyFor] using hp.2

theorem runOps_finish_count (ops : List Op) : ∀ (s : CacheState) (k c n : Nat),
    dictLookup s.processed_requests k = some ⟨c, n⟩ →
    dictLookup (runOps s ops).1.processed_requests k =
      some ⟨c + countReplies k ops, n⟩ ∧
    countFinished k (runOps s ops).2 =
      (if c < n ∧ n ≤ c + countReplies k ops then 1 else 0) := by
  induction ops with
  | nil =>
      intro s k c n h
      constructor
      · simpa [runOps, countReplies] using h
      · simp only [runOps, countReplies, List.countP_nil]
        rw [if_neg]
        · simp [countFinished]
        · omega
  | cons op rest ih =>
      intro s k c n h
      obtain ⟨h1, h2⟩ := applyOp_processed s op k c n h
      obtain ⟨h3, h4⟩ := ih (applyOp s op).1 k
        (c + (if isReplyFor k op then 1 else 0)) n h1
      constructor
      · show dictLookup (runOps (applyOp s op).1 rest).1.processed_requests k = _
        rw [h3, countReplies_cons]
        congr 2
        omega
      · show countFinished k ((applyOp s op).2 ++ (runOps (applyOp s op).1 rest).2) = _
        rw [countFinished_append, h2, h4, countReplies_cons]
        rcases Bool.eq_false_or_eq_true (isReplyFor k op) with hb | hb <;>
          simp only [hb, Bool.false_eq_true, eq_self_iff_true, true_and, false_and,
            if_true, if_false] <;>
          split_ifs <;> omega

/-
Store-effect lemmas for cache_object, and terminal-state monotonicity.
-/

theorem cache_object_store_success (s : CacheState) (r : Reply) (key : Option Nat)
    (d : Doc) (hok : r.error = NetErr.NoError) (hb : r.body = some d) :
    (cache_object s r key).1.objects = dictInsert s.objects r.url d ∧
    (cache_object s r key).1.bad_urls = s.bad_urls := by
  unfold cache_object
  simp only
  have hd := cacheDocPart_success s r d hok hb
  have hk := cacheKeyPart_keeps (cacheDocPart s r).1 key
  rw [hk.1, hk.2.1, hd]
  exact ⟨rfl, rfl⟩

theorem cache_object_store_failure (s : CacheState) (r : Reply) (key : Option Nat)
    (hfail : r.error ≠ NetErr.NoError ∨ r.body = none) :
    (cache_object s r key).1.objects = s.objects ∧
    (cache_object s r key).1.bad_urls = s.bad_urls ++ [r.url] := by
  unfold cache_object
  simp only
  have hd := cacheDocPart_failure s r hfail
  have hk := cacheKeyPart_keeps (cacheDocPart s r).1 key
  rw [hk.1, hk.2.1, hd]
  exact ⟨rfl, rfl⟩

/-- A url has reached a terminal state for the current search: its document
is recorded in the store, or it is in the bad set. -/
def terminal (s : CacheState) (u : String) : Prop :=
  (dictLookup s.objects u).isSome = true ∨ u ∈ s.bad_urls

instance (s : CacheState) (u : String) : Decidable (terminal s u) := by
  unfold terminal
  infer_instance

theorem cache_object_terminal_self (s : CacheState) (r : Reply) (key : Option Nat) :
    terminal (cache_object s r key).1 r.url := by
  rcases cacheDocPart_cases r with ⟨hok, d, hb⟩ | hfail
  · obtain ⟨h1, _⟩ := cache_object_store_success s r key d hok hb
    left
    rw [h1, lookup_dictInsert_self]
    rfl
  · obtain ⟨_, h2⟩ := cache_object_store_failure s r key hfail
    right
    rw [h2]
    simp

theorem applyOp_objects_mono (s : CacheState) (op : Op) (u : String)
    (h : (dictLookup s.objects u).isSome = true) :
    (dictLookup (applyOp s op).1.objects u).isSome = true := by
  cases op with
  | enq urls => simpa [applyOp] using h
  | reply r key =>
      rcases cacheDocPart_cases r with ⟨hok, d, hb⟩ | hfail
      · obtain ⟨h1, _⟩ := cache_object_store_success s r key d hok hb
        show (dictLookup (cache_object s r key).1.objects u).isSome = true
        rw [h1, dictLookup_dictInsert]
        by_cases hu : u = r.url <;> simp [hu, h]
      · obtain ⟨h1, _⟩ := cache_object_store_failure s r key hfail
        show (dictLookup (cache_object s r key).1.objects u).isSome = true
        rw [h1]
        exact h
  | procq =>
      show (dictLookup (process_queue s).1.objects u).isSome = true
      rw [(process_queue_keeps s).1]
      exact h
  | tick =>
      by_cases ha : s.timer_active
      · simp only [applyOp, ha, if_true]
        rw [(timer_timeout_keeps s).1]
        exact h
      · simpa [applyOp, ha] using h
  | rst => simpa [applyOp, reset] using h
  | pop objectIDs =>
      show (dictLookup (populate s objectIDs).1.objects u).isSome = true
      unfold populate
      cases objectIDs with
      | none => exact h
      | some ids =>
          cases ids with
          | nil => exact h
          | cons oid rest =>
              simp only
              rw [(process_queue_keeps _).1]
              dsimp only
              rw [(extend_queue_keeps (popFold s (oid :: rest))
                ((popFold s (oid :: rest)).urls.take MAX_RESULTS)).1]
              rw [popFold_objects]
              split_ifs with hm
              · rfl
              · exact h
  | fm =>
      show (dictLookup (fetchMore s).1.objects u).isSome = true
      rw [(fetchMore_keeps s).1]
      exact h

theorem applyOp_bad_mono (s : CacheState) (op : Op) (u : String)
    (h : u ∈ s.bad_urls) : u ∈ (applyOp s op).1.bad_urls := by
  cases op with
  | enq urls => simpa [applyOp] using h
  | reply r key =>
      rcases cacheDocPart_cases r with ⟨hok, d, hb⟩ | hfail
      · obtain ⟨_, h2⟩ := cache_object_store_success s r key d hok hb
        show u ∈ (cache_object s r key).1.bad_urls
        rw [h2]; exact h
      · obtain ⟨_, h2⟩ := cache_object_store_failure s r key hfail
        show u ∈ (cache_object s r key).1.bad_urls
        rw [h2]; simp [h]
  | procq =>
      show u ∈ (process_queue s).1.bad_urls
      rw [(process_queue_keeps s).2.1]; exact h
  | tick =>
      by_cases ha : s.timer_active
      · simp only [applyOp, ha, if_true]
        rw [(timer_timeout_keeps s).2.1]; exact h
      · simpa [applyOp, ha] using h
  | rst => simpa [applyOp, reset] using h
  | pop objectIDs =>
      show u ∈ (populate s objectIDs).1.bad_urls
      rw [populate_bad_urls]; exact h
  | fm =>
      show u ∈ (fetchMore s).1.bad_urls
      rw [(fetchMore_keeps s).2.1]; exact h

theorem applyOp_terminal_mono (s : CacheState) (op : Op) (u : String)
    (h : terminal s u) : terminal (applyOp s op).1 u := by
  rcases h with h | h
  · exact Or.inl (applyOp_objects_mono s op u h)
  · exact Or.inr (applyOp_bad_mono s op u h)

theorem runOps_terminal_mono (ops : List Op) : ∀ (s : CacheState) (u : String),
    terminal s u → terminal (runOps s ops).1 u := by
  induction ops with
  | nil => intro s u h; exact h
  | cons op rest ih =>
      intro s u h
      exact ih (applyOp s op).1 u (applyOp_terminal_mono s op u h)

/-- The urls of the replies tagged with batch key k, in operation order. -/
def repliedUrls (k : Nat) : List Op → List String
  | [] => []
  | Op.reply r key :: rest =>
      if key = some k then r.url :: repliedUrls k rest else repliedUrls k rest
  | Op.enq _ :: rest => repliedUrls k rest
  | Op.procq :: rest => repliedUrls k rest
  | Op.tick :: rest => repliedUrls k rest
  | Op.rst :: rest => repliedUrls k rest
  | Op.pop _ :: rest => repliedUrls k rest
  | Op.fm :: rest => repliedUrls k rest

theorem runOps_replied_terminal (ops : List Op) : ∀ (s : CacheState) (k : Nat)
    (u : String), u ∈ repliedUrls k ops → terminal (runOps s ops).1 u := by
  induction ops with
  | nil => intro s k u h; simp [repliedUrls] at h
  | cons op rest ih =>
      intro s k u h
      cases op with
      | reply r key =>
          by_cases hk : key = some k
          · rw [repliedUrls, if_pos hk] at h
            rcases List.mem_cons.mp h with h | h
            · subst h
              show terminal (runOps (cache_object s r key).1 rest).1 r.url
              exact runOps_terminal_mono rest _ _
                (cache_object_terminal_self s r key)
            · exact ih _ k u h
          · rw [repliedUrls, if_neg hk] at h
            exact ih _ k u h
      | enq urls => exact ih _ k u h
      | procq => exact ih _ k u h
      | tick => exact ih _ k u h
      | rst => exact ih _ k u h
      | pop objectIDs => exact ih _ k u h
      | fm => exact ih _ k u h

/-
Claim C10.
-/

/-- C10: calling extend_queue with an empty url list creates a batch whose
total is 0 (and an empty entry at the tail of the queue), and the
requests_finished event is never emitted for that batch by any sequence of
subsequent operations: the completion check runs only inside per-reply
handling, where the incremented count is at least 1 and so never equals a
total of 0, and the empty batch issues no requests of its own. -/
theorem empty_batch_total_zero_never_finishes (s : CacheState) (ops : List Op) :
    dictLookup (extend_queue s []).1.processed_requests (newBatchKey s) =
      some ⟨0, 0⟩ ∧
    (extend_queue s []).1.queue = s.queue ++ [[]] ∧
    Ev.requestsFinished (newBatchKey s) ∉ (runOps (extend_queue s []).1 ops).2 := by
  refine ⟨lookup_dictInsert_self _ _ _, rfl, ?_⟩
  intro hmem
  have h := (runOps_finish_count ops (extend_queue s []).1 (newBatchKey s) 0 0
    (lookup_dictInsert_self _ _ _)).2
  rw [if_neg (by omega)] at h
  unfold countFinished at h
  have h0 := List.countP_eq_zero.mp h _ hmem
  simp at h0

/-
Claim C5: counterexample and amended statement.
-/

/-- C5 counterexample: the batch created by extend_queue with an empty url
list (batch key 1, total 0) is fully dispatched by process_queue — the
queue is empty again and no request of it remains pending — yet the run
emits requests_finished zero times for it, not exactly once. -/
theorem empty_batch_completes_without_event :
    dictLookup (runOps initState [Op.enq [], Op.procq]).1.processed_requests 1 =
      some ⟨0, 0⟩ ∧
    (runOps initState [Op.enq [], Op.procq]).1.queue = [] ∧
    countFinished 1 (runOps initState [Op.enq [], Op.procq]).2 = 0 := by
  decide

/-- C5 amended: for every batch with total n at least 1 and completion
count 0, a run of operations containing exactly n replies tagged with the
batch's key emits requests_finished for that batch exactly once; a proper
part of the run in which fewer than n of those replies have been handled
has emitted it zero times; and at the end of the run every url replied for
the batch is terminal (resolved in the store or in the bad set).  A batch
with total 0 never emits it (see the counterexample). -/
theorem batch_finished_once_after_all_replies (s : CacheState)
    (ops p q : List Op) (k n : Nat)
    (hk : dictLookup s.processed_requests k = some ⟨0, n⟩)
    (hn : 1 ≤ n)
    (hall : countReplies k ops = n)
    (hsplit : ops = p ++ q)
    (hpart : countReplies k p < n) :
    countFinished k (runOps s ops).2 = 1 ∧
    countFinished k (runOps s p).2 = 0 ∧
    (∀ u ∈ repliedUrls k ops, terminal (runOps s ops).1 u) := by
  refine ⟨?_, ?_, ?_⟩
  · have h := (runOps_finish_count ops s k 0 n hk).2
    rw [hall] at h
    rw [h, if_pos]
    omega
  · have h := (runOps_finish_count p s k 0 n hk).2
    rw [h, if_neg]
    omega
  · intro u hu
    exact runOps_replied_terminal ops s k u hu

/-- Witness for the amended C5 statement: a one-item batch, its single
reply, and the empty proper part of the run. -/
theorem batch_finished_once_after_all_replies_witness :
    dictLookup (extend_queue initState ["u"]).1.processed_requests 1 =
      some ⟨0, 1⟩ ∧
    countFinished 1 (runOps (extend_queue initState ["u"]).1
      [Op.reply ⟨"u", NetErr.NoError, some [("t", "v")]⟩ (some 1)]).2 = 1 ∧
    countFinished 1 (runOps (extend_queue initState ["u"]).1 ([] : List Op)).2 = 0 ∧
    (∀ u ∈ repliedUrls 1 [Op.reply ⟨"u", NetErr.NoError, some [("t", "v")]⟩ (some 1)],
      terminal (runOps (extend_queue initState ["u"]).1
        [Op.reply ⟨"u", NetErr.NoError, some [("t", "v")]⟩ (some 1)]).1 u) := by
  have h := batch_finished_once_after_all_replies (extend_queue initState ["u"]).1
    [Op.reply ⟨"u", NetErr.NoError, some [("t", "v")]⟩ (some 1)] []
    [Op.reply ⟨"u", NetErr.NoError, some [("t", "v")]⟩ (some 1)] 1 1
    (by decide) (by decide) (by decide) rfl (by decide)
  exact ⟨by decide, h.1, h.2.1, h.2.2⟩

/-
Claim C7.
-/

/-- C7: a failed single-item fetch — a transport error of any kind, or a
reply with an empty body — appends that url to the bad set and emits no new
request: the queue and the requested-url list are unchanged (nothing is
re-queued, so the item is never automatically retried within the search),
the document store and the bad-set membership of every other url are
untouched, and the batch counter of the reply's batch still advances by
one, so sibling items and later batches complete as usual. -/
theorem failed_fetch_marks_bad_without_retry (s : CacheState) (r : Reply)
    (key : Option Nat)
    (hfail : r.error ≠ NetErr.NoError ∨ r.body = none) :
    r.url ∈ (cache_object s r key).1.bad_urls ∧
    (cache_object s r key).1.objects = s.objects ∧
    (cache_object s r key).1.queue = s.queue ∧
    (cache_object s r key).1.requested_urls = s.requested_urls ∧
    (∀ u, u ≠ r.url →
      (u ∈ (cache_object s r key).1.bad_urls ↔ u ∈ s.bad_urls)) ∧
    (∀ kk bi, key = some kk →
      dictLookup s.processed_requests kk = some bi →
      dictLookup (cache_object s r key).1.processed_requests kk =
        some ⟨bi.count + 1, bi.total⟩) := by
  obtain ⟨ho, hb⟩ := cache_object_store_failure s r key hfail
  obtain ⟨hq, hr, _, _, _, _⟩ := cache_object_keeps s r key
  refine ⟨?_, ho, hq, hr, ?_, ?_⟩
  · rw [hb]; simp
  · intro u hu
    rw [hb]
    simp [hu]
  · intro kk bi hkey hbi
    obtain ⟨c, n⟩ := bi
    have h := (cache_object_processed s r key kk c n hbi).1
    rw [hkey] at h ⊢
    simpa using h

/-- Witness for C7: a not-found reply against the initial state, counted
into the initial batch entry with key 0. -/
theorem failed_fetch_marks_bad_without_retry_witness :
    ((⟨"u", NetErr.ContentNotFoundError, none⟩ : Reply).error ≠ NetErr.NoError ∨
      (⟨"u", NetErr.ContentNotFoundError, none⟩ : Reply).body = none) ∧
    "u" ∈ (cache_object initState
      ⟨"u", NetErr.ContentNotFoundError, none⟩ (some 0)).1.bad_urls ∧
    (∀ kk bi, (some 0 : Option Nat) = some kk →
      dictLookup initState.processed_requests kk = some bi →
      dictLookup (cache_object initState
        ⟨"u", NetErr.ContentNotFoundError, none⟩ (some 0)).1.processed_requests kk =
        some ⟨bi.count + 1, bi.total⟩) := by
  have h := failed_fetch_marks_bad_without_retry initState
    ⟨"u", NetErr.ContentNotFoundError, none⟩ (some 0) (by decide)
  exact ⟨by decide, h.1, h.2.2.2.2.2⟩

/-
Claim C6: url states within one search.
-/

/-- Operations that can occur inside a single search: everything except
the reset and populate calls with which a new search begins. -/
def inSearchOp : Op → Bool
  | Op.rst => false
  | Op.pop _ => false
  | Op.enq _ => true
  | Op.reply _ _ => true
  | Op.procq => true
  | Op.tick => true
  | Op.fm => true

/-- The urls of all replies handled in a sequence of operations. -/
def allReplyUrls : List Op → List String
  | [] => []
  | Op.reply r _ :: rest => r.url :: allReplyUrls rest
  | Op.enq _ :: rest => allReplyUrls rest
  | Op.procq :: rest => allReplyUrls rest
  | Op.tick :: rest => allReplyUrls rest
  | Op.rst :: rest => allReplyUrls rest
  | Op.pop _ :: rest => allReplyUrls rest
  | Op.fm :: rest => allReplyUrls rest

/-- A url is resolved when the store holds a non-empty document for it;
an absent entry or the empty placeholder primed by populate both count as
unresolved. -/
def resolvedIn (s : CacheState) (u : String) : Bool :=
  match dictLookup s.objects u with
  | some d => !d.isEmpty
  | none => false

theorem resolvedIn_eq_of_lookup (s1 s2 : CacheState) (u : String)
    (h : dictLookup s1.objects u = dictLookup s2.objects u) :
    resolvedIn s1 u = resolvedIn s2 u := by
  unfold resolvedIn
  rw [h]

theorem applyOp_store_eq_of_nonreply (s : CacheState) (op : Op)
    (hin : inSearchOp op = true)
    (hnr : ∀ r key, op ≠ Op.reply r key) :
    (applyOp s op).1.objects = s.objects ∧
    (applyOp s op).1.bad_urls = s.bad_urls := by
  cases op with
  | enq urls => exact ⟨(extend_queue_keeps s urls).1, (extend_queue_keeps s urls).2.1⟩
  | reply r key => exact absurd rfl (hnr r key)
  | procq => exact ⟨(process_queue_keeps s).1, (process_queue_keeps s).2.1⟩
  | tick =>
      by_cases ha : s.timer_active
      · simp only [applyOp, ha, if_true]
        exact ⟨(timer_timeout_keeps s).1, (timer_timeout_keeps s).2.1⟩
      · simp [applyOp, ha]
  | rst => simp [inSearchOp] at hin
  | pop objectIDs => simp [inSearchOp] at hin
  | fm => exact ⟨(fetchMore_keeps s).1, (fetchMore_keeps s).2.1⟩

theorem runOps_cons (s : CacheState) (op : Op) (ops : List Op) :
    runOps s (op :: ops) =
      ((runOps (applyOp s op).1 ops).1,
       (applyOp s op).2 ++ (runOps (applyOp s op).1 ops).2) := rfl

theorem applyOp_reply_def (s : CacheState) (r : Reply) (key : Option Nat) :
    applyOp s (Op.reply r key) = cache_object s r key := rfl

theorem runOps_url_states (ops : List Op) : ∀ s : CacheState,
    (∀ op ∈ ops, inSearchOp op = true) →
    (allReplyUrls ops).Nodup →
    (∀ v ∈ allReplyUrls ops, resolvedIn s v = false ∧ v ∉ s.bad_urls) →
    (∀ v ∈ s.bad_urls, resolvedIn s v = false) →
    (∀ u, u ∉ allReplyUrls ops →
      dictLookup (runOps s ops).1.objects u = dictLookup s.objects u) ∧
    (∀ u, u ∈ s.bad_urls → u ∈ (runOps s ops).1.bad_urls) ∧
    (∀ v ∈ (runOps s ops).1.bad_urls, resolvedIn (runOps s ops).1 v = false) := by
  induction ops with
  | nil =>
      intro s hin hnodup hfresh h0
      exact ⟨fun u _ => rfl, fun u h => h, h0⟩
  | cons op rest ih =>
      intro s hin hnodup hfresh h0
      have hinr : ∀ o ∈ rest, inSearchOp o = true :=
        fun o ho => hin o (List.mem_cons_of_mem op ho)
      cases hop : op with
      | reply r key =>
          subst hop
          simp only [runOps_cons, applyOp_reply_def]
          have hurls : allReplyUrls (Op.reply r key :: rest) =
              r.url :: allReplyUrls rest := rfl
          rw [hurls] at hnodup hfresh
          have hheadfresh := hfresh r.url (List.mem_cons_self _ _)
          have hnodup2 := (List.nodup_cons.mp hnodup).2
          have hnotin := (List.nodup_cons.mp hnodup).1
          rcases cacheDocPart_cases r with ⟨hok, d, hb⟩ | hfail
          · obtain ⟨ho, hbd⟩ := cache_object_store_success s r key d hok hb
            have hlook : ∀ u, u ≠ r.url →
                dictLookup (cache_object s r key).1.objects u =
                  dictLookup s.objects u := by
              intro u hu
              rw [ho, dictLookup_dictInsert, if_neg hu]
            obtain ⟨ih1, ih2, ih3⟩ := ih (cache_object s r key).1 hinr hnodup2
              (by
                intro v hv
                have hvne : v ≠ r.url := fun he => hnotin (he ▸ hv)
                have hf := hfresh v (List.mem_cons_of_mem _ hv)
                refine ⟨?_, ?_⟩
                · rw [resolvedIn_eq_of_lookup _ s v (hlook v hvne)]
                  exact hf.1
                · rw [hbd]; exact hf.2)
              (by
                intro v hv
                rw [hbd] at hv
                have hvne : v ≠ r.url := fun he => hheadfresh.2 (he ▸ hv)
                rw [resolvedIn_eq_of_lookup _ s v (hlook v hvne)]
                exact h0 v hv)
            refine ⟨?_, ?_, ih3⟩
            · intro u hu
              have hune : u ≠ r.url := fun he => hu (he ▸ List.mem_cons_self _ _)
              have hurest : u ∉ allReplyUrls rest :=
                fun hm => hu (List.mem_cons_of_mem _ hm)
              rw [ih1 u hurest, hlook u hune]
            · intro u hu
              refine ih2 u ?_
              rw [hbd]; exact hu
          · obtain ⟨ho, hbd⟩ := cache_object_store_failure s r key hfail
            have hlook : ∀ u,
                dictLookup (cache_object s r key).1.objects u =
                  dictLookup s.objects u := by
              intro u; rw [ho]
            obtain ⟨ih1, ih2, ih3⟩ := ih (cache_object s r key).1 hinr hnodup2
              (by
                intro v hv
                have hvne : v ≠ r.url := fun he => hnotin (he ▸ hv)
                have hf := hfresh v (List.mem_cons_of_mem _ hv)
                refine ⟨?_, ?_⟩
                · rw [resolvedIn_eq_of_lookup _ s v (hlook v)]
                  exact hf.1
                · rw [hbd]
                  simp only [List.mem_append, List.mem_singleton]
                  rintro (hvv | hvv)
                  · exact hf.2 hvv
                  · exact hvne hvv)
              (by
                intro v hv
                rw [hbd] at hv
                rw [resolvedIn_eq_of_lookup _ s v (hlook v)]
                rcases List.mem_append.mp hv with hvv | hvv
                · exact h0 v hvv
                · rw [List.mem_singleton.mp hvv]
                  exact hheadfresh.1)
            refine ⟨?_, ?_, ih3⟩
            · intro u hu
              have hurest : u ∉ allReplyUrls rest :=
                fun hm => hu (List.mem_cons_of_mem _ hm)
              rw [ih1 u hurest, hlook u]
            · intro u hu
              refine ih2 u ?_
              rw [hbd]
              exact List.mem_append.mpr (Or.inl hu)
      | enq urls =>
          subst hop
          simp only [runOps_cons]
          obtain ⟨ho, hbd⟩ := applyOp_store_eq_of_nonreply s (Op.enq urls)
            (hin _ (List.mem_cons_self _ _)) (by intro r key h; cases h)
          have hlook : ∀ u,
              dictLookup (applyOp s (Op.enq urls)).1.objects u =
                dictLookup s.objects u := fun u => by rw [ho]
          obtain ⟨ih1, ih2, ih3⟩ := ih (applyOp s (Op.enq urls)).1 hinr hnodup
            (by
              intro v hv
              have hf := hfresh v hv
              refine ⟨?_, ?_⟩
              · rw [resolvedIn_eq_of_lookup _ s v (hlook v)]; exact hf.1
              · rw [hbd]; exact hf.2)
            (by
              intro v hv
              rw [hbd] at hv
              rw [resolvedIn_eq_of_lookup _ s v (hlook v)]
              exact h0 v hv)
          refine ⟨?_, ?_, ih3⟩
          · intro u hu
            rw [ih1 u hu, hlook u]
          · intro u hu
            refine ih2 u ?_
            rw [hbd]; exact hu
      | procq =>
          subst hop
          simp only [runOps_cons]
          obtain ⟨ho, hbd⟩ := applyOp_store_eq_of_nonreply s Op.procq
            (hin _ (List.mem_cons_self _ _)) (by intro r key h; cases h)
          have hlook : ∀ u,
              dictLookup (applyOp s Op.procq).1.objects u =
                dictLookup s.objects u := fun u => by rw [ho]
          obtain ⟨ih1, ih2, ih3⟩ := ih (applyOp s Op.procq).1 hinr hnodup
            (by
              intro v hv
              have hf := hfresh v hv
              refine ⟨?_, ?_⟩
              · rw [resolvedIn_eq_of_lookup _ s v (hlook v)]; exact hf.1
              · rw [hbd]; exact hf.2)
            (by
              intro v hv
              rw [hbd] at hv
              rw [resolvedIn_eq_of_lookup _ s v (hlook v)]
              exact h0 v hv)
          refine ⟨?_, ?_, ih3⟩
          · intro u hu
            rw [ih1 u hu, hlook u]
          · intro u hu
            refine ih2 u ?_
            rw [hbd]; exact hu
      | tick =>
          subst hop
          simp only [runOps_cons]
          obtain ⟨ho, hbd⟩ := applyOp_store_eq_of_nonreply s Op.tick
            (hin _ (List.mem_cons_self _ _)) (by intro r key h; cases h)
          have hlook : ∀ u,
              dictLookup (applyOp s Op.tick).1.objects u =
                dictLookup s.objects u := fun u => by rw [ho]
          obtain ⟨ih1, ih2, ih3⟩ := ih (applyOp s Op.tick).1 hinr hnodup
            (by
              intro v hv
              have hf := hfresh v hv
              refine ⟨?_, ?_⟩
              · rw [resolvedIn_eq_of_lookup _ s v (hlook v)]; exact hf.1
              · rw [hbd]; exact hf.2)
            (by
              intro v hv
              rw [hbd] at hv
              rw [resolvedIn_eq_of_lookup _ s v (hlook v)]
              exact h0 v hv)
          refine ⟨?_, ?_, ih3⟩
          · intro u hu
            rw [ih1 u hu, hlook u]
          · intro u hu
            refine ih2 u ?_
            rw [hbd]; exact hu
      | rst =>
          subst hop
          have := hin _ (List.mem_cons_self _ _)
          simp [inSearchOp] at this
      | pop objectIDs =>
          subst hop
          have := hin _ (List.mem_cons_self _ _)
          simp [inSearchOp] at this
      | fm =>
          subst hop
          simp only [runOps_cons]
          obtain ⟨ho, hbd⟩ := applyOp_store_eq_of_nonreply s Op.fm
            (hin _ (List.mem_cons_self _ _)) (by intro r key h; cases h)
          have hlook : ∀ u,
              dictLookup (applyOp s Op.fm).1.objects u =
                dictLookup s.objects u := fun u => by rw [ho]
          obtain ⟨ih1, ih2, ih3⟩ := ih (applyOp s Op.fm).1 hinr hnodup
            (by
              intro v hv
              have hf := hfresh v hv
              refine ⟨?_, ?_⟩
              · rw [resolvedIn_eq_of_lookup _ s v (hlook v)]; exact hf.1
              · rw [hbd]; exact hf.2)
            (by
              intro v hv
              rw [hbd] at hv
              rw [resolvedIn_eq_of_lookup _ s v (hlook v)]
              exact h0 v hv)
          refine ⟨?_, ?_, ih3⟩
          · intro u hu
            rw [ih1 u hu, hlook u]
          · intro u hu
            refine ih2 u ?_
            rw [hbd]; exact hu

/-- C6 counterexample: the bad set is never cleared, so a url that failed
in a prior search and whose object id recurs in the next search's results
is re-primed and re-requested; when its reply then succeeds — a reply
handled by an in-search operation of the new search — the url becomes
resolved while still sitting in the bad set: within that search it moves
from bad to resolved and ends simultaneously resolved and bad, refuting
the claim as stated. -/
theorem bad_url_from_prior_search_resolves :
    (urlOf 5 ∈ (runOps initState
      [Op.pop (some [5]),
       Op.reply ⟨urlOf 5, NetErr.ContentNotFoundError, none⟩ (some 1),
       Op.rst,
       Op.pop (some [5])]).1.bad_urls ∧
     resolvedIn (runOps initState
      [Op.pop (some [5]),
       Op.reply ⟨urlOf 5, NetErr.ContentNotFoundError, none⟩ (some 1),
       Op.rst,
       Op.pop (some [5])]).1 (urlOf 5) = false) ∧
    inSearchOp (Op.reply ⟨urlOf 5, NetErr.NoError, some [("title", "x")]⟩
      (some 2)) = true ∧
    (urlOf 5 ∈ (runOps (runOps initState
      [Op.pop (some [5]),
       Op.reply ⟨urlOf 5, NetErr.ContentNotFoundError, none⟩ (some 1),
       Op.rst,
       Op.pop (some [5])]).1
      [Op.reply ⟨urlOf 5, NetErr.NoError, some [("title", "x")]⟩
        (some 2)]).1.bad_urls ∧
     resolvedIn (runOps (runOps initState
      [Op.pop (some [5]),
       Op.reply ⟨urlOf 5, NetErr.ContentNotFoundError, none⟩ (some 1),
       Op.rst,
       Op.pop (some [5])]).1
      [Op.reply ⟨urlOf 5, NetErr.NoError, some [("title", "x")]⟩
        (some 2)]).1 (urlOf 5) = true) := by
  decide

/-- C6 amended: within one search (a run without reset or populate), given
that each url receives at most one reply (in one search every url is
enqueued into at most one batch, hence requested at most once), that the
replied urls start the search unresolved and outside the bad set — true
for a fresh session, but not guaranteed after a prior search, since the
bad set is never cleared and a recurring url violates the claim (see the
counterexample) — and that initially no url is both resolved and bad:
every resolved url stays resolved, every bad url stays bad and never
becomes resolved, and at the end no url is simultaneously resolved and in
the bad set — urls move only from unresolved to resolved or to bad. -/
theorem url_state_transitions_monotone (s : CacheState) (ops : List Op)
    (hin : ∀ op ∈ ops, inSearchOp op = true)
    (hnodup : (allReplyUrls ops).Nodup)
    (hfresh : ∀ v ∈ allReplyUrls ops, resolvedIn s v = false ∧ v ∉ s.bad_urls)
    (h0 : ∀ v ∈ s.bad_urls, resolvedIn s v = false) :
    (∀ u, resolvedIn s u = true → resolvedIn (runOps s ops).1 u = true) ∧
    (∀ u, u ∈ s.bad_urls →
      u ∈ (runOps s ops).1.bad_urls ∧ resolvedIn (runOps s ops).1 u = false) ∧
    (∀ v ∈ (runOps s ops).1.bad_urls, resolvedIn (runOps s ops).1 v = false) := by
  obtain ⟨h1, h2, h3⟩ := runOps_url_states ops s hin hnodup hfresh h0
  refine ⟨?_, ?_, h3⟩
  · intro u hu
    have hnot : u ∉ allReplyUrls ops := by
      intro hm
      have hfu := (hfresh u hm).1
      rw [hu] at hfu
      cases hfu
    rw [resolvedIn_eq_of_lookup _ s u (h1 u hnot)]
    exact hu
  · intro u hu
    have hmem := h2 u hu
    exact ⟨hmem, h3 u hmem⟩

/-- Witness for C6: a state with one resolved url, then a run handling a
single failing reply for a fresh url. -/
theorem url_state_transitions_monotone_witness :
    (∀ op ∈ [Op.reply ⟨"b", NetErr.ContentNotFoundError, none⟩ none],
      inSearchOp op = true) ∧
    (allReplyUrls [Op.reply ⟨"b", NetErr.ContentNotFoundError, none⟩ none]).Nodup ∧
    (∀ v ∈ allReplyUrls [Op.reply ⟨"b", NetErr.ContentNotFoundError, none⟩ none],
      resolvedIn (runOps initState
        [Op.reply ⟨"a", NetErr.NoError, some [("t", "1")]⟩ none]).1 v = false ∧
      v ∉ (runOps initState
        [Op.reply ⟨"a", NetErr.NoError, some [("t", "1")]⟩ none]).1.bad_urls) ∧
    (∀ u, resolvedIn (runOps initState
        [Op.reply ⟨"a", NetErr.NoError, some [("t", "1")]⟩ none]).1 u = true →
      resolvedIn (runOps (runOps initState
          [Op.reply ⟨"a", NetErr.NoError, some [("t", "1")]⟩ none]).1
        [Op.reply ⟨"b", NetErr.ContentNotFoundError, none⟩ none]).1 u = true) := by
  refine ⟨by decide, by decide, by decide, ?_⟩
  exact (url_state_transitions_monotone
    (runOps initState [Op.reply ⟨"a", NetErr.NoError, some [("t", "1")]⟩ none]).1
    [Op.reply ⟨"b", NetErr.ContentNotFoundError, none⟩ none]
    (by decide) (by decide) (by decide) (by decide)).1

/-
Claim C8: FIFO batch dispatch.
-/

/-- The batches issued by dispatch steps, in emission order. -/
def dispatchedB (evs : List Ev) : List (List Request) :=
  evs.filterMap (fun e =>
    match e with
    | Ev.dispatched b => some b
    | _ => none)

/-- The batches appended to the queue, in emission order. -/
def enqueuedB (evs : List Ev) : List (List Request) :=
  evs.filterMap (fun e =>
    match e with
    | Ev.enqueued b => some b
    | _ => none)

theorem dispatchedB_append (a b : List Ev) :
    dispatchedB (a ++ b) = dispatchedB a ++ dispatchedB b := by
  simp [dispatchedB, List.filterMap_append]

theorem enqueuedB_append (a b : List Ev) :
    enqueuedB (a ++ b) = enqueuedB a ++ enqueuedB b := by
  simp [enqueuedB, List.filterMap_append]

theorem cacheKeyPart_no_batches (s : CacheState) (key : Option Nat) :
    dispatchedB (cacheKeyPart s key).2 = [] ∧
    enqueuedB (cacheKeyPart s key).2 = [] := by
  cases key with
  | none => exact ⟨rfl, rfl⟩
  | some k =>
      cases h : dictLookup s.processed_requests k with
      | none => rw [cacheKeyPart_some_miss s k h]; exact ⟨rfl, rfl⟩
      | some bi =>
          rw [cacheKeyPart_some s k bi h]
          by_cases hc : bi.count + 1 = bi.total <;> simp [hc, dispatchedB, enqueuedB]

theorem applyOp_fifo (s : CacheState) (op : Op) :
    dispatchedB (applyOp s op).2 ++ (applyOp s op).1.queue =
      s.queue ++ enqueuedB (applyOp s op).2 := by
  cases op with
  | enq urls => simp [applyOp, extend_queue, dispatchedB, enqueuedB]
  | reply r key =>
      rw [applyOp_reply_def]
      have hq := (cache_object_keeps s r key).1
      rw [hq]
      unfold cache_object
      simp only
      rw [dispatchedB_append, enqueuedB_append, cacheDocPart_events]
      obtain ⟨hd, he⟩ := cacheKeyPart_no_batches (cacheDocPart s r).1 key
      rw [hd, he]
      simp [dispatchedB, enqueuedB]
  | procq =>
      show dispatchedB (process_queue s).2 ++ (process_queue s).1.queue =
        s.queue ++ enqueuedB (process_queue s).2
      rw [process_queue_events, process_queue_queue]
      cases s.queue <;> simp [dispatchedB, enqueuedB]
  | tick =>
      by_cases ha : s.timer_active
      · simp only [applyOp, ha, if_true]
        unfold timer_timeout
        by_cases hc : s.timer_count = SECONDS
        · simp only [hc, if_true]
          rw [dispatchedB_append, enqueuedB_append]
          rw [process_queue_events, process_queue_queue]
          cases hcase : s.queue <;>
            simp [dispatchedB, enqueuedB, timerStop, hcase]
        · simp [hc, dispatchedB, enqueuedB]
      · simp [applyOp, ha, dispatchedB, enqueuedB]
  | rst => simp [applyOp, reset, dispatchedB, enqueuedB]
  | pop objectIDs =>
      show dispatchedB (populate s objectIDs).2 ++ (populate s objectIDs).1.queue =
        s.queue ++ enqueuedB (populate s objectIDs).2
      unfold populate
      cases objectIDs with
      | none => simp [dispatchedB, enqueuedB]
      | some ids =>
          cases ids with
          | nil => simp [dispatchedB, enqueuedB]
          | cons oid rest =>
              simp only
              rw [dispatchedB_append, enqueuedB_append,
                extend_queue_events, process_queue_events, process_queue_queue]
              have hq : (popFold s (oid :: rest)).queue = s.queue :=
                (popFold_keeps (oid :: rest) s).2.1
              simp only [extend_queue]
              cases hcase : s.queue <;>
                simp [dispatchedB, enqueuedB, hq, hcase]
  | fm =>
      show dispatchedB (fetchMore s).2 ++ (fetchMore s).1.queue =
        s.queue ++ enqueuedB (fetchMore s).2
      unfold fetchMore
      by_cases hf : (s.last_index + 1 : Int) = (s.urls.length : Int)
      · simp [hf, dispatchedB, enqueuedB]
      · simp only [hf, if_false]
        simp [extend_queue, dispatchedB, enqueuedB]

theorem runOps_fifo (ops : List Op) : ∀ s : CacheState,
    dispatchedB (runOps s ops).2 ++ (runOps s ops).1.queue =
      s.queue ++ enqueuedB (runOps s ops).2 := by
  induction ops with
  | nil => intro s; simp [runOps, dispatchedB, enqueuedB]
  | cons op rest ih =>
      intro s
      rw [runOps_cons]
      simp only
      rw [dispatchedB_append, enqueuedB_append, List.append_assoc]
      rw [ih (applyOp s op).1]
      rw [← List.append_assoc, applyOp_fifo s op, List.append_assoc]

/-- C8: batch dispatch is FIFO.  A dispatch step pops exactly the head of
the queue and issues exactly that batch, while enqueues append at the
tail; consequently over any run, the sequence of dispatched batches
followed by the remaining queue equals the initial queue followed by the
enqueued batches in submission order — a batch enqueued earlier is always
dispatched before any batch enqueued later. -/
theorem batches_dispatch_fifo :
    (∀ s : CacheState,
      (process_queue s).1.queue = s.queue.tail ∧
      (process_queue s).2 =
        (match s.queue with
         | [] => []
         | b :: _ => [Ev.dispatched b])) ∧
    (∀ (s : CacheState) (ops : List Op),
      dispatchedB (runOps s ops).2 ++ (runOps s ops).1.queue =
        s.queue ++ enqueuedB (runOps s ops).2) :=
  ⟨fun s => ⟨process_queue_queue s, process_queue_events s⟩,
   fun s ops => runOps_fifo ops s⟩

/-
Claim C9: timer counter bounds.
-/

theorem applyOp_timer_le (s : CacheState) (op : Op)
    (h : s.timer_count ≤ SECONDS) : (applyOp s op).1.timer_count ≤ SECONDS := by
  cases op with
  | enq urls =>
      show (extend_queue s urls).1.timer_count ≤ SECONDS
      rw [(extend_queue_keeps s urls).2.2.2.2.1]
      exact h
  | reply r key =>
      rw [applyOp_reply_def]
      rw [(cache_object_keeps s r key).2.2.2.2.1]
      exact h
  | procq =>
      show (process_queue s).1.timer_count ≤ SECONDS
      rw [(process_queue_timer s).1]
      exact Nat.zero_le _
  | tick =>
      by_cases ha : s.timer_active
      · simp only [applyOp, ha, if_true]
        unfold timer_timeout
        by_cases hc : s.timer_count = SECONDS
        · simp only [hc, if_true]
          rw [(process_queue_timer _).1]
          exact Nat.zero_le _
        · simp only [hc, if_false]
          have : s.timer_count < SECONDS := lt_of_le_of_ne h hc
          omega
      · simp only [applyOp, ha, if_false]
        exact h
  | rst => exact h
  | pop objectIDs =>
      show (populate s objectIDs).1.timer_count ≤ SECONDS
      unfold populate
      cases objectIDs with
      | none => exact h
      | some ids =>
          cases ids with
          | nil => exact h
          | cons oid rest =>
              simp only
              rw [(process_queue_timer _).1]
              exact Nat.zero_le _
  | fm =>
      show (fetchMore s).1.timer_count ≤ SECONDS
      rw [(fetchMore_keeps s).2.2.2.1]
      exact h

theorem runOps_timer_le (ops : List Op) : ∀ s : CacheState,
    s.timer_count ≤ SECONDS → (runOps s ops).1.timer_count ≤ SECONDS := by
  induction ops with
  | nil => intro s h; exact h
  | cons op rest ih =>
      intro s h
      rw [runOps_cons]
      exact ih (applyOp s op).1 (applyOp_timer_le s op h)

/-- C9: Timer.start and Timer.stop both set the elapsed-tick counter to 0,
and over every run of operations from the initial state the counter stays
within the configured period: 0 <= count <= SECONDS (the lower bound holds
because the counter is a natural number, as the source only ever assigns 0
or increments). -/
theorem timer_count_reset_and_bounded :
    (∀ s : CacheState,
      (timerStart s).timer_count = 0 ∧ (timerStop s).timer_count = 0) ∧
    (∀ ops : List Op, (runOps initState ops).1.timer_count ≤ SECONDS) :=
  ⟨fun _ => ⟨rfl, rfl⟩,
   fun ops => runOps_timer_le ops initState (by decide)⟩

/-
Claims C1-C4: concrete evaluations and populate store lemmas.
-/

theorem populate_objects (s : CacheState) (ids : List Nat) (hne : ids ≠ [])
    (u : String) :
    dictLookup (populate s (some ids)).1.objects u =
      if u ∈ ids.map urlOf then some [] else dictLookup s.objects u := by
  cases ids with
  | nil => exact absurd rfl hne
  | cons oid rest =>
      unfold populate
      simp only
      rw [(process_queue_keeps _).1]
      dsimp only
      rw [(extend_queue_keeps (popFold s (oid :: rest))
        ((popFold s (oid :: rest)).urls.take MAX_RESULTS)).1]
      rw [popFold_objects]

theorem populate_urls (s : CacheState) (ids : List Nat) (hne : ids ≠ []) :
    (populate s (some ids)).1.urls = s.urls ++ ids.map urlOf := by
  cases ids with
  | nil => exact absurd rfl hne
  | cons oid rest =>
      unfold populate
      simp only
      rw [(process_queue_keeps _).2.2.2.1]
      dsimp only
      rw [(extend_queue_keeps (popFold s (oid :: rest))
        ((popFold s (oid :: rest)).urls.take MAX_RESULTS)).2.2.1]
      rw [popFold_urls]

theorem populate_requested (s : CacheState) (ids : List Nat) (hne : ids ≠ []) :
    (populate s (some ids)).1.requested_urls =
      s.requested_urls ++ (s.urls ++ ids.map urlOf).take MAX_RESULTS := by
  cases ids with
  | nil => exact absurd rfl hne
  | cons oid rest =>
      unfold populate
      simp only
      rw [(process_queue_keeps _).2.2.1]
      dsimp only
      show (extend_queue (popFold s (oid :: rest))
        ((popFold s (oid :: rest)).urls.take MAX_RESULTS)).1.requested_urls = _
      rw [show (extend_queue (popFold s (oid :: rest))
          ((popFold s (oid :: rest)).urls.take MAX_RESULTS)).1.requested_urls =
        (popFold s (oid :: rest)).requested_urls ++
          (popFold s (oid :: rest)).urls.take MAX_RESULTS from rfl]
      rw [(popFold_keeps (oid :: rest) s).2.2.1, popFold_urls]

set_option maxRecDepth 40000

/-- C1 (evaluation of the code at the failing input): for a search whose
identifier lookup returns 81 identifiers, populate admits the first 80
urls and leaves the cursor at 79; a single fetchMore call for the one
remaining url then adds the page length to the cursor twice (model.py
lines 252 and 256), leaving the cursor at 81, which is strictly greater
than N - 1 = 80 — the cursor leaves the identifier list's index range. -/
theorem fetchMore_double_advance_overshoots_cursor :
    (runOps initState [Op.pop (some (List.range 81))]).1.urls.length = 81 ∧
    (runOps initState [Op.pop (some (List.range 81))]).1.last_index = 79 ∧
    (runOps initState [Op.pop (some (List.range 81)), Op.fm]).1.last_index = 81 ∧
    ¬ ((runOps initState [Op.pop (some (List.range 81)), Op.fm]).1.last_index ≤
        (81 : Int) - 1) := by
  decide

/-- C2 counterexample: a first search (ids 5 and 6) resolves the url of
id 5; a new search (id 7) then begins, and the still-in-flight reply for
id 6 of the first search fails afterwards.  In the new search's state the
bad set contains the prior search's url 6 — the reset did not clear the
bad set, and the late reply mutated it — and the prior search's resolved
document for url 5 is still in the store. -/
theorem new_search_retains_bad_and_resolved_state :
    (runOps initState
      [Op.pop (some [5, 6]),
       Op.reply ⟨urlOf 5, NetErr.NoError, some [("title", "x")]⟩ (some 1),
       Op.rst,
       Op.pop (some [7]),
       Op.reply ⟨urlOf 6, NetErr.ContentNotFoundError, none⟩ (some 1)]).1.bad_urls
      = [urlOf 6] ∧
    dictLookup (runOps initState
      [Op.pop (some [5, 6]),
       Op.reply ⟨urlOf 5, NetErr.NoError, some [("title", "x")]⟩ (some 1),
       Op.rst,
       Op.pop (some [7]),
       Op.reply ⟨urlOf 6, NetErr.ContentNotFoundError, none⟩ (some 1)]).1.objects
      (urlOf 5) = some [("title", "x")] ∧
    (runOps initState
      [Op.pop (some [5, 6]),
       Op.reply ⟨urlOf 5, NetErr.NoError, some [("title", "x")]⟩ (some 1),
       Op.rst,
       Op.pop (some [7]),
       Op.reply ⟨urlOf 6, NetErr.ContentNotFoundError, none⟩ (some 1)]).1.last_index
      = 0 := by
  decide

/-- C2 amended: the reset with which a new search begins clears only the
identifier list and the cursor; the bad set, the document store, the
queue, the requested-url list and the batch counters all survive into the
new search, and a reply from a request issued during the prior search that
completes after the reset still mutates the shared state — a failing late
reply enters the bad set. -/
theorem reset_clears_only_urls_and_cursor (s : CacheState) (r : Reply)
    (key : Option Nat) (hfail : r.error ≠ NetErr.NoError ∨ r.body = none) :
    (reset s).urls = [] ∧
    (reset s).last_index = -1 ∧
    (reset s).bad_urls = s.bad_urls ∧
    (reset s).objects = s.objects ∧
    (reset s).queue = s.queue ∧
    (reset s).requested_urls = s.requested_urls ∧
    (reset s).processed_requests = s.processed_requests ∧
    r.url ∈ (cache_object (reset s) r key).1.bad_urls := by
  refine ⟨rfl, rfl, rfl, rfl, rfl, rfl, rfl, ?_⟩
  have h := (cache_object_store_failure (reset s) r key hfail).2
  rw [h]
  simp

/-- Witness for the amended C2 statement: a transport-error late reply
against the reset initial state. -/
theorem reset_clears_only_urls_and_cursor_witness :
    ((⟨"u", NetErr.OtherError, none⟩ : Reply).error ≠ NetErr.NoError ∨
      (⟨"u", NetErr.OtherError, none⟩ : Reply).body = none) ∧
    (reset initState).last_index = -1 ∧
    "u" ∈ (cache_object (reset initState)
      ⟨"u", NetErr.OtherError, none⟩ none).1.bad_urls := by
  have h := reset_clears_only_urls_and_cursor initState
    ⟨"u", NetErr.OtherError, none⟩ none (by decide)
  exact ⟨by decide, h.2.1, h.2.2.2.2.2.2.2⟩

/-- C3 counterexample: populate (one identifier) dispatches its batch and
starts the timer, leaving the queue empty; after the timer has reached the
configured period (61 ticks, counting from 0), the scheduler has restarted
the timer even though the queue is empty — the timer is still active — and
the very next tick emits another pacing event instead of the scheduler
staying idle. -/
theorem timer_restarts_with_empty_queue :
    (runOps initState
      (Op.pop (some [5]) :: List.replicate 61 Op.tick)).1.queue = [] ∧
    (runOps initState
      (Op.pop (some [5]) :: List.replicate 61 Op.tick)).1.timer_active = true ∧
    (applyOp (runOps initState
      (Op.pop (some [5]) :: List.replicate 61 Op.tick)).1 Op.tick).2 ≠ [] := by
  decide

/-- C3 amended: when the pacing timer reaches the configured period, the
scheduler stops the timer, pops and dispatches the head batch only if the
queue is non-empty, and then unconditionally restarts the timer (count 0,
running) and emits a progress tick of SECONDS remaining; it does not
return to idle on an empty queue, so pacing ticks keep being emitted. -/
theorem timer_timeout_at_period_restarts (s : CacheState)
    (h : s.timer_count = SECONDS) :
    (timer_timeout s).1.timer_active = true ∧
    (timer_timeout s).1.timer_count = 0 ∧
    (timer_timeout s).1.queue = s.queue.tail ∧
    (timer_timeout s).2 =
      (match s.queue with
       | [] => []
       | b :: _ => [Ev.dispatched b]) ++ [Ev.timerProgress (SECONDS : Int)] := by
  unfold timer_timeout
  simp only [h, if_true]
  refine ⟨(process_queue_timer _).2, (process_queue_timer _).1, ?_, ?_⟩
  · rw [process_queue_queue]
    rfl
  · rw [process_queue_events]
    rw [(process_queue_timer _).1]
    simp [timerStop]

/-- Witness for the amended C3 statement: the initial state with the timer
at the period boundary. -/
theorem timer_timeout_at_period_restarts_witness :
    ({ initState with timer_count := SECONDS, timer_active := true } : CacheState).timer_count = SECONDS ∧
    (timer_timeout { initState with timer_count := SECONDS, timer_active := true }).1.timer_active = true ∧
    (timer_timeout { initState with timer_count := SECONDS, timer_active := true }).1.timer_count = 0 := by
  have h := timer_timeout_at_period_restarts
    { initState with timer_count := SECONDS, timer_active := true } rfl
  exact ⟨rfl, h.1, h.2.1⟩

/-- C4 counterexample: populate for a search with 81 identifiers creates a
(present but empty) store entry for the 81st url even though only the
first 80 urls are admitted to the single batch: the 81st url is in no
batch — it was never requested and the (emptied) queue never contained it —
yet its store entry exists. -/
theorem unbatched_url_has_empty_store_entry :
    dictLookup (runOps initState [Op.pop (some (List.range 81))]).1.objects
      (urlOf 80) = some [] ∧
    urlOf 80 ∉
      (runOps initState [Op.pop (some (List.range 81))]).1.requested_urls ∧
    (runOps initState [Op.pop (some (List.range 81))]).1.queue = [] := by
  refine ⟨?_, ?_, ?_⟩
  · have h := populate_objects initState (List.range 81) (by decide) (urlOf 80)
    rw [if_pos (List.mem_map_of_mem urlOf (by decide : 80 ∈ List.range 81))] at h
    exact h
  · decide
  · decide

/-- C4 amended: after populate with a search's identifier list, a url has
a store entry exactly when it is one of the search's result urls — every
result url is primed with an empty document at populate time, whether
batched or not — so a missing entry means "not a result of this search",
a present-but-empty entry means "not yet resolved" (pending or never
requested), and requested-ness is tracked separately: the requested urls
are exactly the first MAX_RESULTS result urls, the single enqueued
batch. -/
theorem store_entry_iff_in_search_urls (ids : List Nat) :
    (∀ u, (dictLookup (populate initState (some ids)).1.objects u).isSome = true ↔
      u ∈ (populate initState (some ids)).1.urls) ∧
    (populate initState (some ids)).1.requested_urls =
      (populate initState (some ids)).1.urls.take MAX_RESULTS ∧
    (∀ oid ∈ ids, dictLookup (populate initState (some ids)).1.objects
      (urlOf oid) = some []) := by
  cases hids : ids with
  | nil =>
      refine ⟨?_, ?_, ?_⟩
      · intro u
        simp [populate, initState, dictLookup]
      · simp [populate, initState]
      · intro oid h
        simp at h
  | cons oid0 rest =>
      have hne : (oid0 :: rest : List Nat) ≠ [] := by simp
      refine ⟨?_, ?_, ?_⟩
      · intro u
        rw [populate_objects initState (oid0 :: rest) hne u,
          populate_urls initState (oid0 :: rest) hne]
        by_cases hm : u ∈ (oid0 :: rest).map urlOf <;>
          simp [hm, initState, dictLookup]
      · rw [populate_requested initState (oid0 :: rest) hne,
          populate_urls initState (oid0 :: rest) hne]
        simp [initState]
      · intro oid hm
        rw [populate_objects initState (oid0 :: rest) hne (urlOf oid),
          if_pos (List.mem_map_of_mem urlOf hm)]

end Metsearch
